import Mathlib

/-!
# Verification of the ascend.ai recommendation client and engine model

Shallow embedding of the ExxML/nwHacks2026 (ascend.ai) repository.

The client-side code (`client/src/components/UserInputPage/UserInputPage.js`,
`client/src/components/Visualization/VisualPage.js`) is embedded directly from
the JavaScript source.  The Python recommendation engine (`engine/`) is not
part of the inspected sources; where a property concerns the engine, the
relevant component is modelled from the specification text and marked as such
in its doc comment.
-/

/-! ## Risk slider (client/src/components/UserInputPage/UserInputPage.js)

`getRiskLevel` converts the 0-100 slider value to a categorical risk level. -/

inductive RiskLevel
  | low
  | medium
  | high
deriving DecidableEq

/-- Embedding of `getRiskLevel` from `UserInputPage.js`:
`if (value < 33) return 'low'; if (value < 67) return 'medium'; return 'high';` -/
def getRiskLevel (value : Nat) : RiskLevel :=
  if value < 33 then RiskLevel.low
  else if value < 67 then RiskLevel.medium
  else RiskLevel.high

/-! ## Resource links (client/src/components/Visualization/VisualPage.js)

`generateResources` maps an action name to a fixed pair of educational links. -/

structure Resource where
  title : String
  url : String
deriving DecidableEq

/-- Lower-casing of a string, character by character (JS `toLowerCase` on the
ASCII action names used here). -/
def lowerStr (s : String) : String :=
  String.mk (s.toList.map Char.toLower)

/-- Does the character list start with the given pattern? -/
def startsWithChars : List Char → List Char → Bool
  | _, [] => true
  | [], _ :: _ => false
  | a :: s, b :: t => a == b && startsWithChars s t

/-- Substring occurrence on character lists (JS `String.prototype.includes`). -/
def hasSubChars : List Char → List Char → Bool
  | [], sub => sub.isEmpty
  | a :: s, sub => startsWithChars (a :: s) sub || hasSubChars s sub

/-- JS `s.includes(sub)`. -/
def strIncludes (s sub : String) : Bool :=
  hasSubChars s.toList sub.toList

/-- The `resourceMap` object literal of `generateResources`, in declaration
order (JS object string keys enumerate in insertion order). -/
def resourceMap : List (String × List Resource) :=
  [ ("emergency",
      [⟨"Emergency Fund Calculator", "https://www.nerdwallet.com/article/banking/emergency-fund-calculator"⟩,
       ⟨"How to Build Emergency Savings", "https://www.investopedia.com/terms/e/emergency_fund.asp"⟩]),
    ("budget",
      [⟨"Create a Budget Guide", "https://www.consumer.gov/articles/1002-making-budget"⟩,
       ⟨"50/30/20 Budget Rule", "https://www.nerdwallet.com/article/finance/nerdwallet-budget-calculator"⟩]),
    ("401k",
      [⟨"401(k) Basics", "https://www.investopedia.com/terms/1/401kplan.asp"⟩,
       ⟨"Maximize Your 401(k)", "https://www.fidelity.com/viewpoints/retirement/how-much-to-save"⟩]),
    ("ira",
      [⟨"IRA Comparison Guide", "https://www.irs.gov/retirement-plans/individual-retirement-arrangements-iras"⟩,
       ⟨"Roth vs Traditional IRA", "https://www.investopedia.com/roth-vs-traditional-ira-5088005"⟩]),
    ("debt",
      [⟨"Debt Payoff Strategies", "https://www.nerdwallet.com/article/finance/pay-off-debt"⟩,
       ⟨"Debt Avalanche vs Snowball", "https://www.investopedia.com/articles/personal-finance/080716/debt-avalanche-vs-debt-snowball-which-best-you.asp"⟩]),
    ("credit",
      [⟨"Build Your Credit Score", "https://www.experian.com/blogs/ask-experian/credit-education/improving-credit/improve-credit-score/"⟩,
       ⟨"Free Credit Report", "https://www.annualcreditreport.com/"⟩]),
    ("invest",
      [⟨"Investing for Beginners", "https://www.investopedia.com/articles/basics/06/invest1000.asp"⟩,
       ⟨"Index Fund Guide", "https://www.bogleheads.org/wiki/Getting_started"⟩]),
    ("stock",
      [⟨"Stock Market Basics", "https://www.investopedia.com/terms/s/stockmarket.asp"⟩,
       ⟨"How to Buy Stocks", "https://www.nerdwallet.com/article/investing/how-to-buy-stocks"⟩]),
    ("save",
      [⟨"High-Yield Savings Accounts", "https://www.bankrate.com/banking/savings/best-high-yield-interests-savings-accounts/"⟩,
       ⟨"Savings Strategies", "https://www.consumerfinance.gov/consumer-tools/save-as-you-go/"⟩]),
    ("house",
      [⟨"First-Time Homebuyer Guide", "https://www.hud.gov/topics/buying_a_home"⟩,
       ⟨"Mortgage Calculator", "https://www.bankrate.com/calculators/mortgages/mortgage-calculator.aspx"⟩]),
    ("mortgage",
      [⟨"Mortgage Basics", "https://www.consumerfinance.gov/owning-a-home/"⟩,
       ⟨"Compare Mortgage Rates", "https://www.bankrate.com/mortgages/mortgage-rates/"⟩]),
    ("tax",
      [⟨"Tax Planning Strategies", "https://www.irs.gov/individuals"⟩,
       ⟨"Tax Deductions Guide", "https://www.investopedia.com/articles/tax/09/tax-deductions.asp"⟩]),
    ("insurance",
      [⟨"Insurance Basics", "https://www.insurance.com/insurance-basics.aspx"⟩,
       ⟨"Life Insurance Guide", "https://www.policygenius.com/life-insurance/"⟩]),
    ("retire",
      [⟨"Retirement Planning", "https://www.ssa.gov/benefits/retirement/"⟩,
       ⟨"Retirement Calculator", "https://www.bankrate.com/retirement/calculators/retirement-plan-calculator/"⟩]),
    ("loan",
      [⟨"Student Loan Options", "https://studentaid.gov/"⟩,
       ⟨"Loan Refinancing", "https://www.nerdwallet.com/refinancing-student-loans"⟩]) ]

/-- The fixed fallback pair returned when no keyword matches. -/
def defaultResources : List Resource :=
  [⟨"Personal Finance Guide", "https://www.investopedia.com/personal-finance-4427760"⟩,
   ⟨"Financial Planning Basics", "https://www.nerdwallet.com/article/finance/financial-planning"⟩]

/-- The `for (const [keyword, resources] of Object.entries(resourceMap))` loop
of `generateResources`: return the resources of the first keyword contained in
`name`, else the default pair. -/
def lookupResources (name : String) : List (String × List Resource) → List Resource
  | [] => defaultResources
  | (kw, rs) :: rest => if strIncludes name kw then rs else lookupResources name rest

/-- Embedding of `generateResources(actionName, actionId)` from
`VisualPage.js`.  The `actionId` parameter is declared by the JS function but
never read. -/
def generateResources (actionName : String) (actionId : String) : List Resource :=
  lookupResources (lowerStr actionName) resourceMap

/-! ## Visualization transformation (VisualPage.js, `transformRecommendations`) -/

/-- A recommendation as returned by the engine API (the fields read by
`transformRecommendations`).  Absent JS string fields are modelled as `""`
(falsy, like `undefined` under `||`). -/
structure EngineRec where
  action_id : String
  name : String
  description : String
  personalized_description : String
  prerequisites : List String
deriving DecidableEq

/-- A visualization node produced by `transformRecommendations`. -/
structure VisNode where
  id : String
  name : String
  description : String
  resources : List Resource
  dependencies : List String
deriving DecidableEq

/-- Worker for `dedupFirst`: skip elements already seen, in order. -/
def dedupFirstAux (seen : List String) : List String → List String
  | [] => []
  | x :: xs =>
    if seen.contains x then dedupFirstAux seen xs
    else x :: dedupFirstAux (x :: seen) xs

/-- JS `[...new Set(l)]`: keep the first occurrence of each element. -/
def dedupFirst (l : List String) : List String :=
  dedupFirstAux [] l

/-- The `engineDeps` computation: map each declared prerequisite name to the
`action_id` of the first recommendation in `allRecs` with exactly that name,
dropping names that match nothing (`.filter(Boolean)`). -/
def engineDeps (allRecs : List EngineRec) (rec : EngineRec) : List String :=
  rec.prerequisites.filterMap
    (fun p => (allRecs.find? (fun r => r.name == p)).map (fun r => r.action_id))

/-- `const stageIds = new Set(recs.map(r => r.action_id))`. -/
def stageIds (recs : List EngineRec) : List String :=
  recs.map (fun r => r.action_id)

/-- `relevantEngineDeps = engineDeps.filter(id => stageIds.has(id))`. -/
def relevantEngineDeps (recs allRecs : List EngineRec) (rec : EngineRec) : List String :=
  (engineDeps allRecs rec).filter (fun i => (stageIds recs).contains i)

/-- `const sequentialDeps = index > 0 ? [recs[index - 1].action_id] : []`. -/
def seqDeps (recs : List EngineRec) (i : Nat) : List String :=
  if 0 < i then
    match recs[i-1]? with
    | some r => [r.action_id]
    | none => []
  else []

/-- Body of the `recs.map((rec, index) => ...)` callback in
`transformRecommendations`. -/
def mkVisNode (recs allRecs : List EngineRec) (i : Nat) (rec : EngineRec) : VisNode :=
  { id := rec.action_id
    name := rec.name
    description :=
      if rec.description ≠ "" then rec.description
      else if rec.personalized_description ≠ "" then rec.personalized_description
      else "No description available"
    resources := generateResources rec.name rec.action_id
    dependencies := dedupFirst (seqDeps recs i ++ relevantEngineDeps recs allRecs rec) }

/-- Embedding of `transformRecommendations(recs, allRecs)` from
`VisualPage.js`. -/
def transformRecommendations (recs allRecs : List EngineRec) : List VisNode :=
  recs.enum.map (fun p => mkVisNode recs allRecs p.1 p.2)

/-! ## Engine request construction (VisualPage.js, `fetchRecommendations`) -/

/-- The raw client profile as stored in Firestore; every field may be absent
(`none`) or present.  An empty string is falsy in JS, like an absent field. -/
structure RawProfile where
  age : Option String
  location : Option String
  propertyValue : Option String
  vehicleValue : Option String
  investments : Option String
  debt : Option String
  salary : Option String
  has_dependents : Option Bool
deriving DecidableEq

/-- JS `x || d` for a possibly-absent string (absent and `""` are falsy). -/
def orDefault : Option String → String → String
  | none, d => d
  | some s, d => if s = "" then d else s

/-- The engine request profile built by `fetchRecommendations`. -/
structure EngineProfile where
  age_range : String
  location : String
  property_value : String
  vehicle_value : String
  investments : String
  debt : String
  monthly_salary : String
  has_dependents : Bool
  employment_stability : ℚ
deriving DecidableEq

/-- Embedding of the `engineProfile` object literal of `fetchRecommendations`
(`VisualPage.js` lines 435-445): every field falls back to a fixed default via
`||`, and `employment_stability` is the constant `0.7`. -/
def buildEngineProfile (p : RawProfile) : EngineProfile :=
  { age_range := orDefault p.age "30-34"
    location := orDefault p.location "Unknown"
    property_value := orDefault p.propertyValue "prefer_not_to_say"
    vehicle_value := orDefault p.vehicleValue "prefer_not_to_say"
    investments := orDefault p.investments "prefer_not_to_say"
    debt := orDefault p.debt "prefer_not_to_say"
    monthly_salary := orDefault p.salary "prefer_not_to_say"
    has_dependents := p.has_dependents.getD false
    employment_stability := 7/10 }

/-- A profile field that JS treats as absent: missing or the empty string. -/
def isBlank (o : Option String) : Prop :=
  o = none ∨ o = some ""

instance (o : Option String) : Decidable (isBlank o) := by
  unfold isBlank
  infer_instance

/-- The all-absent profile. -/
def emptyRawProfile : RawProfile :=
  ⟨none, none, none, none, none, none, none, none⟩

/-! ## Supporting lemmas for the client-side functions -/

theorem resourceMap_keys_lower_bool :
    resourceMap.all (fun p => lowerStr p.1 == p.1) = true := by rfl

theorem resourceMap_keys_lower : ∀ p ∈ resourceMap, lowerStr p.1 = p.1 := by
  intro p hp
  have h := List.all_eq_true.mp resourceMap_keys_lower_bool p hp
  exact eq_of_beq h

theorem resourceMap_entries_length : ∀ p ∈ resourceMap, p.2.length = 2 := by decide

theorem lookupResources_eq_find (name : String) (l : List (String × List Resource))
    (hl : ∀ p ∈ l, lowerStr p.1 = p.1) :
    lookupResources name l =
      (match l.find? (fun p => strIncludes name (lowerStr p.1)) with
       | some p => p.2
       | none => defaultResources) := by
  induction l with
  | nil => rfl
  | cons a rest ih =>
    obtain ⟨kw, rs⟩ := a
    have hkw : lowerStr kw = kw := hl ⟨kw, rs⟩ (List.mem_cons_self _ _)
    by_cases h : strIncludes name kw = true
    · rw [lookupResources, if_pos h, List.find?_cons_of_pos]
      simp only [hkw]
      exact h
    · rw [lookupResources, if_neg h, List.find?_cons_of_neg,
        ih (fun p hp => hl p (List.mem_cons_of_mem _ hp))]
      simp only [hkw]
      exact h

/-! ## C1: risk slider thresholds -/

/-- C1: for every slider value `v` in 0..100, `getRiskLevel` returns `low`
iff `v < 33`, `medium` iff `33 ≤ v < 67`, and `high` iff `v ≥ 67`. -/
theorem getRiskLevel_thresholds (v : Nat) (hv : v ≤ 100) :
    (getRiskLevel v = RiskLevel.low ↔ v < 33) ∧
    (getRiskLevel v = RiskLevel.medium ↔ 33 ≤ v ∧ v < 67) ∧
    (getRiskLevel v = RiskLevel.high ↔ 67 ≤ v) := by
  refine ⟨?_, ?_, ?_⟩ <;> unfold getRiskLevel <;> (split; rotate_left; split) <;>
    simp_all <;> omega

/-- Witness for C1 at the slider's initial value 50. -/
theorem getRiskLevel_thresholds_witness :
    (getRiskLevel 50 = RiskLevel.low ↔ 50 < 33) ∧
    (getRiskLevel 50 = RiskLevel.medium ↔ 33 ≤ 50 ∧ 50 < 67) ∧
    (getRiskLevel 50 = RiskLevel.high ↔ 67 ≤ 50) :=
  getRiskLevel_thresholds 50 (by decide)

/-! ## C10: generateResources -/

/-- C10: `generateResources` ignores its `actionId` argument, always returns
exactly two links, and returns the pair of the first keyword of the fixed
map (in declaration order) contained case-insensitively in the action name,
or the fixed default pair when no keyword matches. -/
theorem generateResources_first_keyword (n a b : String) :
    generateResources n a = generateResources n b ∧
    (generateResources n a).length = 2 ∧
    generateResources n a =
      (match resourceMap.find? (fun p => strIncludes (lowerStr n) (lowerStr p.1)) with
       | some p => p.2
       | none => defaultResources) := by
  have hchar : generateResources n a =
      (match resourceMap.find? (fun p => strIncludes (lowerStr n) (lowerStr p.1)) with
       | some p => p.2
       | none => defaultResources) := by
    rw [generateResources, lookupResources_eq_find _ _ resourceMap_keys_lower]
  refine ⟨rfl, ?_, hchar⟩
  rw [hchar]
  cases hf : resourceMap.find? (fun p => strIncludes (lowerStr n) (lowerStr p.1)) with
  | none => rfl
  | some p => exact resourceMap_entries_length p (List.mem_of_find?_eq_some hf)

/-! ## C2 and C9: transformRecommendations -/

theorem transformRecommendations_length (recs allRecs : List EngineRec) :
    (transformRecommendations recs allRecs).length = recs.length := by
  simp [transformRecommendations, List.enum_length]

theorem transformRecommendations_get (recs allRecs : List EngineRec) (i : Nat)
    (hi : i < recs.length) :
    (transformRecommendations recs allRecs).get
      ⟨i, by rw [transformRecommendations_length]; exact hi⟩ =
      mkVisNode recs allRecs i (recs.get ⟨i, hi⟩) := by
  simp [transformRecommendations, List.getElem_enum]

theorem mem_dedupFirstAux {a : String} :
    ∀ {l seen : List String}, a ∈ dedupFirstAux seen l ↔ a ∈ l ∧ a ∉ seen := by
  intro l
  induction l with
  | nil => simp [dedupFirstAux]
  | cons x xs ih =>
    intro seen
    rw [dedupFirstAux]
    by_cases hx : x ∈ seen
    · rw [if_pos (List.elem_iff.mpr hx), ih]
      simp only [List.mem_cons]
      constructor
      · rintro ⟨hm, hns⟩
        exact ⟨Or.inr hm, hns⟩
      · rintro ⟨hm | hm, hns⟩
        · exact absurd (hm ▸ hx) hns
        · exact ⟨hm, hns⟩
    · rw [if_neg (fun hc => hx (List.elem_iff.mp hc))]
      simp only [List.mem_cons, ih]
      constructor
      · rintro (rfl | ⟨hm, hns⟩)
        · exact ⟨Or.inl rfl, hx⟩
        · exact ⟨Or.inr hm, fun hmem => hns (Or.inr hmem)⟩
      · rintro ⟨hm | hm, hns⟩
        · exact Or.inl hm
        · by_cases hax : a = x
          · exact Or.inl hax
          · exact Or.inr ⟨hm, by simp [hax, hns]⟩

theorem mem_dedupFirst {a : String} {l : List String} : a ∈ dedupFirst l ↔ a ∈ l := by
  rw [dedupFirst, mem_dedupFirstAux]
  simp

/-- C2: within one horizon bucket, the transformation adds a sequential
dependency from each node to its predecessor: node `i > 0` has the
`action_id` of node `i-1` among its dependencies, and node `0` has no
sequential dependency (its dependencies are exactly the deduplicated
same-stage engine prerequisites). -/
theorem transformRecommendations_sequential_deps (recs allRecs : List EngineRec)
    (i : Nat) (hi : i < recs.length) :
    (0 < i →
      (recs.get ⟨i - 1, by omega⟩).action_id ∈
        ((transformRecommendations recs allRecs).get
          ⟨i, by rw [transformRecommendations_length]; exact hi⟩).dependencies) ∧
    (i = 0 →
      ((transformRecommendations recs allRecs).get
          ⟨i, by rw [transformRecommendations_length]; exact hi⟩).dependencies =
        dedupFirst (relevantEngineDeps recs allRecs (recs.get ⟨i, hi⟩))) := by
  rw [transformRecommendations_get recs allRecs i hi]
  constructor
  · intro hpos
    show _ ∈ dedupFirst (seqDeps recs i ++ _)
    rw [mem_dedupFirst]
    apply List.mem_append_left
    rw [seqDeps, if_pos hpos]
    have hlt : i - 1 < recs.length := by omega
    rw [List.getElem?_eq_getElem hlt]
    simp [List.get_eq_getElem]
  · intro h0
    subst h0
    show dedupFirst (seqDeps recs 0 ++ _) = _
    rw [seqDeps]
    simp

def wRecs : List EngineRec :=
  [⟨"a1", "x", "", "", []⟩,
   ⟨"a2", "y", "", "", ["x"]⟩]

/-- Witness for C2 on a concrete two-element bucket. -/
theorem transformRecommendations_sequential_deps_witness :
    (0 < 1 →
      (wRecs.get ⟨1 - 1, by decide⟩).action_id ∈
        ((transformRecommendations wRecs wRecs).get
          ⟨1, by rw [transformRecommendations_length]; decide⟩).dependencies) ∧
    (1 = 0 →
      ((transformRecommendations wRecs wRecs).get
          ⟨1, by rw [transformRecommendations_length]; decide⟩).dependencies =
        dedupFirst (relevantEngineDeps wRecs wRecs (wRecs.get ⟨1, by decide⟩))) :=
  transformRecommendations_sequential_deps wRecs wRecs 1 (by decide)

/-- C9: every dependency of a visualization node is either the implicit
sequential dependency on the previous same-bucket node, or comes from a
declared prerequisite whose name exactly matches the name of some
recommendation in the full result (resolved by `find?`, i.e. first exact
name match) whose `action_id` moreover lies in the same stage; prerequisites
that resolve to another stage or match nothing contribute no dependency. -/
theorem transformRecommendations_dep_sources (recs allRecs : List EngineRec)
    (i : Nat) (hi : i < recs.length) (d : String)
    (hd : d ∈ ((transformRecommendations recs allRecs).get
        ⟨i, by rw [transformRecommendations_length]; exact hi⟩).dependencies) :
    (0 < i ∧ ∃ hi' : i - 1 < recs.length, d = (recs.get ⟨i - 1, hi'⟩).action_id) ∨
    (∃ p ∈ (recs.get ⟨i, hi⟩).prerequisites,
      ∃ r, allRecs.find? (fun x => x.name == p) = some r ∧
        r.action_id = d ∧ d ∈ stageIds recs) := by
  rw [transformRecommendations_get recs allRecs i hi] at hd
  have hd' : d ∈ dedupFirst (seqDeps recs i ++
      relevantEngineDeps recs allRecs (recs.get ⟨i, hi⟩)) := hd
  rw [mem_dedupFirst] at hd'
  rcases List.mem_append.mp hd' with hseq | hrel
  · left
    rw [seqDeps] at hseq
    split at hseq
    case isTrue hpos =>
      have hlt : i - 1 < recs.length := by omega
      rw [List.getElem?_eq_getElem hlt] at hseq
      refine ⟨hpos, hlt, ?_⟩
      simpa [List.get_eq_getElem] using hseq
    case isFalse => simp at hseq
  · right
    rw [relevantEngineDeps] at hrel
    rcases List.mem_filter.mp hrel with ⟨hed, hstage⟩
    rw [engineDeps] at hed
    rcases List.mem_filterMap.mp hed with ⟨p, hp, hfp⟩
    rcases Option.map_eq_some'.mp hfp with ⟨r, hfind, hid⟩
    exact ⟨p, hp, r, hfind, hid, List.elem_iff.mp hstage⟩

/-- Witness for C9: the single dependency of the second concrete node is
accounted for by the disjunction. -/
theorem transformRecommendations_dep_sources_witness :
    (0 < 1 ∧ ∃ hi' : 1 - 1 < wRecs.length, "a1" = (wRecs.get ⟨1 - 1, hi'⟩).action_id) ∨
    (∃ p ∈ (wRecs.get ⟨1, by decide⟩).prerequisites,
      ∃ r, wRecs.find? (fun x => x.name == p) = some r ∧
        r.action_id = "a1" ∧ "a1" ∈ stageIds wRecs) :=
  transformRecommendations_dep_sources wRecs wRecs 1 (by decide) "a1" (by decide)

/-! ## C3: engine request defaults (corrected) -/

/-- C3 counterexample: `age` is a bucketed field, yet a fully-absent profile
maps it to `"30-34"`, not to `"prefer_not_to_say"`. -/
theorem buildEngineProfile_age_counterexample :
    (buildEngineProfile emptyRawProfile).age_range = "30-34" ∧
    ¬ (buildEngineProfile emptyRawProfile).age_range = "prefer_not_to_say" := by
  refine ⟨rfl, ?_⟩
  decide

/-- C3 (amended): building the engine request never fails; each absent or
empty optional field falls back to a fixed neutral default —
`"prefer_not_to_say"` for the property, vehicle, investments, debt and salary
buckets, `"30-34"` for age, `"Unknown"` for location, `false` for the
dependents flag — and employment stability is always the constant `0.7`. -/
theorem buildEngineProfile_defaults (p : RawProfile) :
    (isBlank p.age → (buildEngineProfile p).age_range = "30-34") ∧
    (isBlank p.location → (buildEngineProfile p).location = "Unknown") ∧
    (isBlank p.propertyValue → (buildEngineProfile p).property_value = "prefer_not_to_say") ∧
    (isBlank p.vehicleValue → (buildEngineProfile p).vehicle_value = "prefer_not_to_say") ∧
    (isBlank p.investments → (buildEngineProfile p).investments = "prefer_not_to_say") ∧
    (isBlank p.debt → (buildEngineProfile p).debt = "prefer_not_to_say") ∧
    (isBlank p.salary → (buildEngineProfile p).monthly_salary = "prefer_not_to_say") ∧
    ((p.has_dependents = none ∨ p.has_dependents = some false) →
      (buildEngineProfile p).has_dependents = false) ∧
    (buildEngineProfile p).employment_stability = 7/10 := by
  refine ⟨?_, ?_, ?_, ?_, ?_, ?_, ?_, ?_, rfl⟩ <;>
    (intro h; rcases h with h | h <;> simp [buildEngineProfile, orDefault, h])

/-- Witness for C3 (amended) on the all-absent profile. -/
theorem buildEngineProfile_defaults_witness :
    (buildEngineProfile emptyRawProfile).age_range = "30-34" ∧
    (buildEngineProfile emptyRawProfile).location = "Unknown" ∧
    (buildEngineProfile emptyRawProfile).property_value = "prefer_not_to_say" ∧
    (buildEngineProfile emptyRawProfile).vehicle_value = "prefer_not_to_say" ∧
    (buildEngineProfile emptyRawProfile).investments = "prefer_not_to_say" ∧
    (buildEngineProfile emptyRawProfile).debt = "prefer_not_to_say" ∧
    (buildEngineProfile emptyRawProfile).monthly_salary = "prefer_not_to_say" ∧
    (buildEngineProfile emptyRawProfile).has_dependents = false ∧
    (buildEngineProfile emptyRawProfile).employment_stability = 7/10 := by
  have h := buildEngineProfile_defaults emptyRawProfile
  exact ⟨h.1 (Or.inl rfl), h.2.1 (Or.inl rfl), h.2.2.1 (Or.inl rfl), h.2.2.2.1 (Or.inl rfl),
    h.2.2.2.2.1 (Or.inl rfl), h.2.2.2.2.2.1 (Or.inl rfl), h.2.2.2.2.2.2.1 (Or.inl rfl),
    h.2.2.2.2.2.2.2.1 (Or.inl rfl), h.2.2.2.2.2.2.2.2⟩

/-! ## Engine model

The Python engine under `engine/` is not part of the inspected sources; the
definitions below are modelled from the specification (sections 3, 4.2-4.7)
and from the engine's documented request/response contract. -/

inductive Horizon
  | short
  | medium
  | long
  | extended
deriving DecidableEq

/-- Position of a horizon bucket in the short → medium → long → extended order. -/
def Horizon.idx : Horizon → Nat
  | .short => 0
  | .medium => 1
  | .long => 2
  | .extended => 3

/-- Modelled from the spec (§3 Action): a catalog entry of the engine's
action registry. -/
structure CAction where
  id : Nat
  name : String
  category : String
  riskLevel : Nat
  basePriority : Nat
  expectedReturn : Nat
  effortHours : Nat
  tags : List String
  prereqNames : List String
  horizon : Horizon
deriving DecidableEq

/-- Modelled from the spec (§3 ScoredAction): an action plus its weighted
total score. -/
structure SNode where
  act : CAction
  score : ℚ
deriving DecidableEq

def SNode.id (n : SNode) : Nat := n.act.id

/-- Modelled from the spec (§4.4): for every declared prerequisite name, add a
prerequisite → dependent edge when the prerequisite resolves inside the
candidate set, and drop it otherwise. -/
def buildEdges (cands : List SNode) : List (Nat × Nat) :=
  cands.flatMap (fun a =>
    a.act.prereqNames.filterMap (fun pn =>
      (cands.find? (fun b => b.act.name == pn)).map (fun b => (b.id, a.id))))

/-- No edge of `edges` points at node `i` from a node still in `remIds`. -/
def noIncoming (edges : List (Nat × Nat)) (remIds : List Nat) (i : Nat) : Bool :=
  !(edges.any (fun e => e.2 == i && remIds.contains e.1))

/-- The remaining nodes with no incoming edge from a remaining node. -/
def availableNodes (edges : List (Nat × Nat)) (remaining : List SNode) : List SNode :=
  remaining.filter (fun n => noIncoming edges (remaining.map SNode.id) n.id)

/-- First element of maximal score (descending score, ties by list order,
which is catalog declaration order). -/
def maxScoreFirst : List SNode → Option SNode
  | [] => none
  | n :: rest =>
    match maxScoreFirst rest with
    | none => some n
    | some m => if n.score < m.score then some m else some n

def pickNext (edges : List (Nat × Nat)) (remaining : List SNode) : Option SNode :=
  maxScoreFirst (availableNodes edges remaining)

/-- One Kahn-style elimination round per unit of fuel; returns the emitted
topological order and the stuck remainder. -/
def topoGo (edges : List (Nat × Nat)) : Nat → List SNode → List SNode × List SNode
  | 0, remaining => ([], remaining)
  | fuel + 1, remaining =>
    match pickNext edges remaining with
    | none => ([], remaining)
    | some n =>
      let r := topoGo edges fuel (remaining.erase n)
      (n :: r.1, r.2)

/-- Modelled from the spec (§4.4): attempt a topological sort of all nodes;
ties are broken by descending total score, then declaration order.  The sort
succeeds exactly when the stuck remainder (second component) is empty. -/
def topoSortRun (nodes : List SNode) (edges : List (Nat × Nat)) : List SNode × List SNode :=
  topoGo edges nodes.length nodes

/-- Walk backwards along edges inside the stuck set `S`, extending the path
until a node repeats; returns the edges of the extracted cycle. -/
def walkBack (edges : List (Nat × Nat)) (S : List Nat) :
    Nat → List Nat → List (Nat × Nat) → Option (List (Nat × Nat))
  | 0, _, _ => none
  | fuel + 1, path, pedges =>
    match path with
    | [] => none
    | cur :: rest =>
      match edges.find? (fun e => e.2 == cur && S.contains e.1) with
      | none => none
      | some e =>
        if (cur :: rest).contains e.1 then
          some (e :: pedges.take ((cur :: rest).takeWhile (fun x => x != e.1)).length)
        else
          walkBack edges S fuel (e.1 :: cur :: rest) (e :: pedges)

/-- Total score of the node with a given id (0 when absent). -/
def scoreOf (nodes : List SNode) (i : Nat) : ℚ :=
  match nodes.find? (fun n => n.id == i) with
  | some n => n.score
  | none => 0

/-- The cycle edge whose head (dependent) node has the lowest total score;
ties keep the earliest edge of the extracted cycle. -/
def pickMinEdge (nodes : List SNode) : List (Nat × Nat) → Option (Nat × Nat)
  | [] => none
  | e :: rest =>
    match pickMinEdge nodes rest with
    | none => some e
    | some m => if scoreOf nodes m.2 < scoreOf nodes e.2 then some m else some e

/-- Modelled from the spec (§4.4): detect a cycle among the nodes a
topological-sort attempt cannot order, and return the cycle edge whose head
node has the lowest total score; `none` when the graph is already acyclic. -/
def findCycleEdge (nodes : List SNode) (edges : List (Nat × Nat)) : Option (Nat × Nat) :=
  match (topoSortRun nodes edges).2 with
  | [] => none
  | n :: rest =>
    match walkBack edges ((n :: rest).map SNode.id) ((n :: rest).length + 1) [n.id] [] with
    | none => none
    | some cyc => pickMinEdge nodes cyc

/-- The cycle-resolution loop, one break per unit of fuel. -/
def breakCyclesF (nodes : List SNode) : Nat → List (Nat × Nat) → List (Nat × Nat)
  | 0, edges => edges
  | fuel + 1, edges =>
    match findCycleEdge nodes edges with
    | none => edges
    | some e => breakCyclesF nodes fuel (edges.erase e)

/-- Modelled from the spec (§4.4): repeatedly detect a cycle and remove its
lowest-scored-head edge until no cycle remains.  Each break removes an edge,
so `edges.length + 1` rounds of fuel always suffice. -/
def breakCycles (nodes : List SNode) (edges : List (Nat × Nat)) : List (Nat × Nat) :=
  breakCyclesF nodes (edges.length + 1) edges

/-- The topological order of the resolved graph. -/
def topoOrder (nodes : List SNode) (edges0 : List (Nat × Nat)) : List SNode :=
  (topoSortRun nodes (breakCycles nodes edges0)).1

def topoIds (nodes : List SNode) (edges0 : List (Nat × Nat)) : List Nat :=
  (topoOrder nodes edges0).map SNode.id

/-- Modelled from the spec (§4.5): a horizon bucket is the topological order
restricted to the actions with that horizon affinity. -/
def bucketIds (nodes : List SNode) (edges0 : List (Nat × Nat)) (h : Horizon) : List Nat :=
  ((topoOrder nodes edges0).filter (fun n => n.act.horizon == h)).map SNode.id

/-- Modelled from the spec (§4.5): the cross-bucket sequential path
concatenates the bucket orders short → medium → long → extended. -/
def seqPath (nodes : List SNode) (edges0 : List (Nat × Nat)) : List Nat :=
  bucketIds nodes edges0 Horizon.short ++ bucketIds nodes edges0 Horizon.medium ++
    bucketIds nodes edges0 Horizon.long ++ bucketIds nodes edges0 Horizon.extended

/-- `Precedes u v l`: some occurrence of `u` comes strictly before some
occurrence of `v` in `l`. -/
inductive Precedes (u v : Nat) : List Nat → Prop
  | head {l : List Nat} : v ∈ l → Precedes u v (u :: l)
  | tail {x : Nat} {l : List Nat} : Precedes u v l → Precedes u v (x :: l)

/-! ## Engine construction and orchestration (modelled from the spec) -/

/-- Modelled from the spec (§4.3): the eight scoring weights.  The engine's
decimal weights carry two decimal places; they are represented exactly as
integer hundredths, so weight 0.15 is stored as 15 and the documented
sum-to-1.0 invariant reads `total = 100`. -/
structure ScoringWeights where
  base_priority_weight : Nat
  risk_alignment_weight : Nat
  goal_alignment_weight : Nat
  profile_fit_weight : Nat
  urgency_weight : Nat
  impact_weight : Nat
  feasibility_weight : Nat
  priority_area_weight : Nat
deriving DecidableEq

def ScoringWeights.total (w : ScoringWeights) : Nat :=
  w.base_priority_weight + w.risk_alignment_weight + w.goal_alignment_weight +
    w.profile_fit_weight + w.urgency_weight + w.impact_weight +
    w.feasibility_weight + w.priority_area_weight

structure AscendEngine where
  weights : ScoringWeights
  catalog : List CAction
deriving DecidableEq

/-- Modelled from the spec (§4.7, §7): engine construction validates the
weight sum; a non-summing weight set is a construction-time error, so no
engine value exists for it and `process` can never run with it. -/
def mkEngine (w : ScoringWeights) (catalog : List CAction) : Except String AscendEngine :=
  if w.total = 100 then Except.ok ⟨w, catalog⟩
  else Except.error "scoring weights must sum to 1.0"

structure EngineQuery where
  risk_tolerance : String
  current_situation : String
  goal : String
deriving DecidableEq

/-- Modelled from the spec (§3 Query): risk tolerance as an ordinal, with the
medium value as neutral default for unknown strings. -/
def riskOrdinal : String → Nat
  | "low" => 0
  | "high" => 2
  | _ => 1

/-- Modelled from the spec (§4.1): free text is lower-cased and tokenized. -/
def tokenize (s : String) : List String :=
  (lowerStr s).splitOn " "

structure EvalContext where
  risk : Nat
  tokens : List String
deriving DecidableEq

/-- Modelled from the spec (§4.1): the canonical evaluation context derived
from the query; a pure function that never fails. -/
def normalizeQuery (q : EngineQuery) : EvalContext :=
  { risk := riskOrdinal q.risk_tolerance
    tokens := tokenize q.current_situation ++ tokenize q.goal }

/-- Modelled from the spec (§4.1): the debt bucket string maps to a stable
ordinal, with a mid-ordinal neutral default for absent buckets. -/
def debtOrdinal (p : EngineProfile) : Nat :=
  match p.debt with
  | "$0" => 0
  | "<$5k" => 1
  | "$5k–$15k" => 2
  | "$15k–$30k" => 3
  | "$30k–$75k" => 4
  | "$75k–$150k" => 5
  | "$150k+" => 6
  | _ => 3

/-- Modelled from the spec (§4.1): the investments bucket string maps to a
stable ordinal, with a mid-ordinal neutral default. -/
def investOrdinal (p : EngineProfile) : Nat :=
  match p.investments with
  | "$0" => 0
  | "<$5k" => 1
  | "$5k–$15k" => 2
  | "$15k–$30k" => 3
  | "$30k–$60k" => 4
  | "$60k–$100k" => 5
  | "$100k–$250k" => 6
  | _ => 3

def natAbsDiff (a b : Nat) : Nat := max a b - min a b

/-- Modelled from the spec (§4.3.2): inverted distance between action risk
and query risk tolerance. -/
def riskAlignScore (ctx : EvalContext) (a : CAction) : ℚ :=
  100 - 50 * (natAbsDiff a.riskLevel ctx.risk : ℚ)

/-- Modelled from the spec (§4.3.3): token overlap between action tags and
the normalized goal/situation tokens. -/
def goalAlignScore (ctx : EvalContext) (a : CAction) : ℚ :=
  min 100 (25 * ((a.tags.filter (fun t => ctx.tokens.contains t)).length : ℚ))

/-- Modelled from the spec (§4.3.4): investment actions fit poorly a
high-debt profile. -/
def profileFitScore (p : EngineProfile) (a : CAction) : ℚ :=
  if a.category = "investment" ∧ 4 ≤ debtOrdinal p then 20 else 70

/-- Modelled from the spec (§4.3.5): urgency from profile time pressure. -/
def urgencyScore (p : EngineProfile) : ℚ :=
  if 4 ≤ debtOrdinal p then 80 else 40

/-- Modelled from the spec (§4.3.6): declared expected-return magnitude,
scaled into [0,100]. -/
def impactScore (a : CAction) : ℚ :=
  min 100 (a.expectedReturn : ℚ)

/-- Modelled from the spec (§4.3.7): inverse of effort, adjusted by
employment stability. -/
def feasibilityScore (p : EngineProfile) (a : CAction) : ℚ :=
  (max 0 (100 - (a.effortHours : ℚ))) * p.employment_stability

/-- Modelled from the spec (§4.3.8): the category inferred as dominant from
the profile. -/
def dominantCategory (p : EngineProfile) : String :=
  if 4 ≤ debtOrdinal p then "debt"
  else if investOrdinal p ≤ 1 then "savings"
  else "investment"

def priorityAreaScore (p : EngineProfile) (a : CAction) : ℚ :=
  if a.category = dominantCategory p then 100 else 50

/-- Modelled from the spec (§4.3): Total = Σ weight_i × subscore_i; the /100
undoes the hundredths representation of the weights. -/
def totalScore (w : ScoringWeights) (p : EngineProfile) (ctx : EvalContext)
    (a : CAction) : ℚ :=
  ((w.base_priority_weight : ℚ) * (a.basePriority : ℚ) +
   (w.risk_alignment_weight : ℚ) * riskAlignScore ctx a +
   (w.goal_alignment_weight : ℚ) * goalAlignScore ctx a +
   (w.profile_fit_weight : ℚ) * profileFitScore p a +
   (w.urgency_weight : ℚ) * urgencyScore p +
   (w.impact_weight : ℚ) * impactScore a +
   (w.feasibility_weight : ℚ) * feasibilityScore p a +
   (w.priority_area_weight : ℚ) * priorityAreaScore p a) / 100

/-- Modelled from the spec (§4.2): keyword-driven dynamic action generation
with request-scoped synthesized ids and a fixed keyword → horizon mapping. -/
def generatedActions (ctx : EvalContext) : List CAction :=
  (if ctx.tokens.contains "debt" then
    [⟨9001, "Accelerate Debt Paydown", "debt", 0, 80, 60, 10, ["debt"], [], Horizon.short⟩]
   else []) ++
  (if ctx.tokens.contains "house" then
    [⟨9002, "Save For A Home Down Payment", "savings", 1, 70, 50, 20, ["house"], [], Horizon.long⟩]
   else []) ++
  (if ctx.tokens.contains "retire" then
    [⟨9003, "Increase Retirement Contributions", "retirement", 1, 70, 65, 15, ["retire"], [], Horizon.extended⟩]
   else [])

def scoreActions (w : ScoringWeights) (p : EngineProfile) (ctx : EvalContext)
    (cands : List CAction) : List SNode :=
  cands.map (fun a => ⟨a, totalScore w p ctx a⟩)

structure EngineResult where
  short_term : List SNode
  medium_term : List SNode
  long_term : List SNode
  extended_term : List SNode
  sequential_path : List Nat
deriving DecidableEq

/-- Modelled from the spec (§4.7): `process` composes normalize → generate →
score → build DAG → resolve cycles → topological order → group → path. -/
def processResult (e : AscendEngine) (p : EngineProfile) (q : EngineQuery) : EngineResult :=
  let ctx := normalizeQuery q
  let cands := e.catalog ++ generatedActions ctx
  let scored := scoreActions e.weights p ctx cands
  let edges := buildEdges scored
  let order := topoOrder scored edges
  { short_term := order.filter (fun n => n.act.horizon == Horizon.short)
    medium_term := order.filter (fun n => n.act.horizon == Horizon.medium)
    long_term := order.filter (fun n => n.act.horizon == Horizon.long)
    extended_term := order.filter (fun n => n.act.horizon == Horizon.extended)
    sequential_path := seqPath scored edges }

/-- Modelled from the spec (§1, §5): the engine holds no per-request state;
one call reads the immutable engine value and returns it unchanged beside the
freshly built result. -/
def processSt (p : EngineProfile) (q : EngineQuery) (e : AscendEngine) :
    EngineResult × AscendEngine :=
  (processResult e p q, e)

/-- The results of repeated calls, threading the engine state through. -/
def processTrace (p : EngineProfile) (q : EngineQuery) : AscendEngine → Nat → List EngineResult
  | _, 0 => []
  | e, n + 1 =>
    (processSt p q e).1 :: processTrace p q (processSt p q e).2 n

/-! ## Precedence in a list of ids -/

theorem precedes_cons_iff (u v x : Nat) (l : List Nat) :
    Precedes u v (x :: l) ↔ (x = u ∧ v ∈ l) ∨ Precedes u v l := by
  constructor
  · intro h
    cases h with
    | head hv => exact Or.inl ⟨rfl, hv⟩
    | tail h => exact Or.inr h
  · rintro (⟨rfl, hv⟩ | h)
    · exact Precedes.head hv
    · exact Precedes.tail h

def decPrecedes (u v : Nat) : (l : List Nat) → Decidable (Precedes u v l)
  | [] => isFalse (fun h => by cases h)
  | x :: l =>
    match decPrecedes u v l, inferInstanceAs (Decidable (x = u ∧ v ∈ l)) with
    | isTrue h, _ => isTrue (Precedes.tail h)
    | isFalse _, isTrue hc => isTrue (by rcases hc with ⟨rfl, hv⟩; exact Precedes.head hv)
    | isFalse hn, isFalse hnc => isFalse (fun h => by
        rcases (precedes_cons_iff u v x l).mp h with hc | hp
        exacts [hnc hc, hn hp])

instance (u v : Nat) (l : List Nat) : Decidable (Precedes u v l) := decPrecedes u v l

theorem Precedes.append_left {u v : Nat} {l1 : List Nat} (l2 : List Nat)
    (h : Precedes u v l1) : Precedes u v (l1 ++ l2) := by
  induction h with
  | head hv => exact Precedes.head (List.mem_append_left _ hv)
  | tail _ ih => exact Precedes.tail ih

theorem Precedes.append_right {u v : Nat} (l1 : List Nat) {l2 : List Nat}
    (h : Precedes u v l2) : Precedes u v (l1 ++ l2) := by
  induction l1 with
  | nil => exact h
  | cons x xs ih => exact Precedes.tail ih

theorem precedes_append_of_mem {u v : Nat} {l1 l2 : List Nat}
    (hu : u ∈ l1) (hv : v ∈ l2) : Precedes u v (l1 ++ l2) := by
  induction l1 with
  | nil => cases hu
  | cons x xs ih =>
    rcases List.mem_cons.mp hu with rfl | hu'
    · exact Precedes.head (List.mem_append_right _ hv)
    · exact Precedes.tail (ih hu')

theorem precedes_filter_map {u v : Nat} (p : SNode → Bool) :
    ∀ {l : List SNode}, Precedes u v (l.map SNode.id) →
    (∀ n ∈ l, n.id = u → p n = true) →
    (∀ n ∈ l, n.id = v → p n = true) →
    Precedes u v ((l.filter p).map SNode.id) := by
  intro l
  induction l with
  | nil => intro h _ _; cases h
  | cons n rest ih =>
    intro h hu hv
    rw [List.map_cons] at h
    rcases (precedes_cons_iff _ _ _ _).mp h with ⟨hnu, hvm⟩ | hp
    · have hpn : p n = true := hu n (List.mem_cons_self _ _) hnu
      rw [List.filter_cons_of_pos hpn, List.map_cons]
      rcases List.mem_map.mp hvm with ⟨m, hm, hmv⟩
      have hpm : p m = true := hv m (List.mem_cons_of_mem _ hm) hmv
      have hvmem : v ∈ (rest.filter p).map SNode.id :=
        List.mem_map.mpr ⟨m, List.mem_filter.mpr ⟨hm, hpm⟩, hmv⟩
      rw [hnu]
      exact Precedes.head hvmem
    · have ih' := ih hp (fun m hm => hu m (List.mem_cons_of_mem _ hm))
        (fun m hm => hv m (List.mem_cons_of_mem _ hm))
      by_cases hpn : p n = true
      · rw [List.filter_cons_of_pos hpn, List.map_cons]
        exact Precedes.tail ih'
      · rw [List.filter_cons_of_neg (by simp [hpn])]
        exact ih'

/-! ## Kahn-round lemmas -/

theorem maxScoreFirst_mem : ∀ {l : List SNode} {n : SNode},
    maxScoreFirst l = some n → n ∈ l := by
  intro l
  induction l with
  | nil => intro n h; cases h
  | cons a rest ih =>
    intro n h
    rw [maxScoreFirst] at h
    cases hm : maxScoreFirst rest with
    | none => simp only [hm] at h; cases h; exact List.mem_cons_self _ _
    | some m =>
      simp only [hm] at h
      by_cases hcmp : a.score < m.score
      · rw [if_pos hcmp] at h; cases h; exact List.mem_cons_of_mem _ (ih hm)
      · rw [if_neg hcmp] at h; cases h; exact List.mem_cons_self _ _

theorem maxScoreFirst_eq_none : ∀ {l : List SNode}, maxScoreFirst l = none → l = [] := by
  intro l h
  cases l with
  | nil => rfl
  | cons a rest =>
    rw [maxScoreFirst] at h
    cases hm : maxScoreFirst rest with
    | none => simp only [hm] at h; cases h
    | some m =>
      simp only [hm] at h
      by_cases hcmp : a.score < m.score
      · rw [if_pos hcmp] at h; cases h
      · rw [if_neg hcmp] at h; cases h

theorem pickNext_some {edges : List (Nat × Nat)} {remaining : List SNode} {n : SNode}
    (h : pickNext edges remaining = some n) :
    n ∈ remaining ∧ noIncoming edges (remaining.map SNode.id) n.id = true := by
  have hmem := maxScoreFirst_mem h
  rw [availableNodes] at hmem
  exact ⟨(List.mem_filter.mp hmem).1, (List.mem_filter.mp hmem).2⟩

theorem pickNext_none {edges : List (Nat × Nat)} {remaining : List SNode}
    (h : pickNext edges remaining = none) :
    ∀ n ∈ remaining, noIncoming edges (remaining.map SNode.id) n.id = false := by
  intro n hn
  have hempty := maxScoreFirst_eq_none h
  rw [availableNodes] at hempty
  have hfa := List.filter_eq_nil_iff.mp hempty n hn
  exact Bool.eq_false_iff.mpr hfa

theorem noIncoming_false {edges : List (Nat × Nat)} {remIds : List Nat} {i : Nat}
    (h : noIncoming edges remIds i = false) :
    ∃ e ∈ edges, e.2 = i ∧ e.1 ∈ remIds := by
  rw [noIncoming, Bool.not_eq_false'] at h
  rcases List.any_eq_true.mp h with ⟨e, he, hpe⟩
  rw [Bool.and_eq_true] at hpe
  exact ⟨e, he, eq_of_beq hpe.1, List.elem_iff.mp hpe.2⟩

theorem noIncoming_false_of_edge {edges : List (Nat × Nat)} {remIds : List Nat} {u i : Nat}
    (he : (u, i) ∈ edges) (hu : u ∈ remIds) : noIncoming edges remIds i = false := by
  have hany : edges.any (fun e => e.2 == i && remIds.contains e.1) = true :=
    List.any_eq_true.mpr ⟨(u, i), he, by
      rw [Bool.and_eq_true]
      exact ⟨beq_self_eq_true i, List.elem_iff.mpr hu⟩⟩
  rw [noIncoming, hany]
  rfl

/-! ## Topological-sort lemmas -/

theorem topoGo_stuck (edges : List (Nat × Nat)) :
    ∀ fuel (remaining : List SNode), remaining.length ≤ fuel →
    (topoGo edges fuel remaining).2 = [] ∨
      pickNext edges (topoGo edges fuel remaining).2 = none := by
  intro fuel
  induction fuel with
  | zero =>
    intro remaining hlen
    have hnil : remaining = [] := List.eq_nil_of_length_eq_zero (Nat.le_zero.mp hlen)
    subst hnil
    exact Or.inl rfl
  | succ fuel ih =>
    intro remaining hlen
    rw [topoGo]
    cases hp : pickNext edges remaining with
    | none => exact Or.inr hp
    | some n =>
      have hmem := (pickNext_some hp).1
      have hlen' : (remaining.erase n).length ≤ fuel := by
        rw [List.length_erase_of_mem hmem]
        omega
      exact ih (remaining.erase n) hlen'

theorem topoGo_perm (edges : List (Nat × Nat)) :
    ∀ fuel (remaining : List SNode),
    remaining.Perm ((topoGo edges fuel remaining).1 ++ (topoGo edges fuel remaining).2) := by
  intro fuel
  induction fuel with
  | zero => intro remaining; simp [topoGo]
  | succ fuel ih =>
    intro remaining
    rw [topoGo]
    cases hp : pickNext edges remaining with
    | none => simp
    | some n =>
      have hmem := (pickNext_some hp).1
      exact (List.perm_cons_erase hmem).trans (List.Perm.cons n (ih (remaining.erase n)))

theorem topoGo_order_subset (edges : List (Nat × Nat)) (fuel : Nat) (remaining : List SNode) :
    ∀ x ∈ (topoGo edges fuel remaining).1, x ∈ remaining := by
  intro x hx
  exact (topoGo_perm edges fuel remaining).symm.subset (List.mem_append_left _ hx)

theorem topoGo_precedes (edges : List (Nat × Nat)) :
    ∀ fuel (remaining : List SNode), remaining.length ≤ fuel →
    (topoGo edges fuel remaining).2 = [] →
    ∀ u v : Nat, (u, v) ∈ edges →
    u ∈ (topoGo edges fuel remaining).1.map SNode.id →
    v ∈ (topoGo edges fuel remaining).1.map SNode.id →
    Precedes u v ((topoGo edges fuel remaining).1.map SNode.id) := by
  intro fuel
  induction fuel with
  | zero =>
    intro remaining _ _ u v _ hu _
    simp [topoGo] at hu
  | succ fuel ih =>
    intro remaining hlen hdone u v he hu hv
    rw [topoGo] at hdone hu hv ⊢
    cases hp : pickNext edges remaining with
    | none =>
      simp only [hp] at hu
      simp at hu
    | some n =>
      simp only [hp] at hdone hu hv ⊢
      rw [List.map_cons] at hu hv ⊢
      have hnoinc := (pickNext_some hp).2
      have hnmem := (pickNext_some hp).1
      rcases List.mem_cons.mp hv with rfl | hv'
      · -- v is the freshly emitted head: impossible, u would block it
        exfalso
        have humem : u ∈ remaining.map SNode.id := by
          rcases List.mem_cons.mp hu with rfl | hu'
          · exact List.mem_map.mpr ⟨n, hnmem, rfl⟩
          · rcases List.mem_map.mp hu' with ⟨m, hm, hmi⟩
            have : m ∈ remaining :=
              List.erase_subset _ _ (topoGo_order_subset edges fuel (remaining.erase n) m hm)
            exact List.mem_map.mpr ⟨m, this, hmi⟩
        have hfalse := noIncoming_false_of_edge he humem
        rw [hfalse] at hnoinc
        cases hnoinc
      · rcases List.mem_cons.mp hu with rfl | hu'
        · exact Precedes.head hv'
        · have hlen' : (remaining.erase n).length ≤ fuel := by
            rw [List.length_erase_of_mem hnmem]
            omega
          exact Precedes.tail (ih (remaining.erase n) hlen' hdone u v he hu' hv')

/-! ## Cycle-extraction lemmas -/

theorem walkBack_isSome (edges : List (Nat × Nat)) (S : List Nat)
    (H1 : ∀ x ∈ S, ∃ e ∈ edges, e.2 = x ∧ e.1 ∈ S) :
    ∀ fuel (path : List Nat) (pedges : List (Nat × Nat)),
    path ≠ [] → path.Nodup → (∀ x ∈ path, x ∈ S) →
    S.length < fuel + path.length →
    (walkBack edges S fuel path pedges).isSome = true := by
  intro fuel
  induction fuel with
  | zero =>
    intro path pedges hne hnd hsub hlen
    exfalso
    have hle : path.length ≤ S.length := (hnd.subperm hsub).length_le
    omega
  | succ fuel ih =>
    intro path pedges hne hnd hsub hlen
    cases path with
    | nil => exact absurd rfl hne
    | cons cur rest =>
      have hcur : cur ∈ S := hsub cur (List.mem_cons_self _ _)
      rcases H1 cur hcur with ⟨e0, he0, h2, h1⟩
      have hp0 : (fun e => e.2 == cur && S.contains e.1) e0 = true := by
        show (e0.2 == cur && S.contains e0.1) = true
        rw [h2, Bool.and_eq_true]
        exact ⟨beq_self_eq_true cur, List.elem_iff.mpr h1⟩
      rw [walkBack]
      cases hf : edges.find? (fun e => e.2 == cur && S.contains e.1) with
      | none => exact absurd hp0 (List.find?_eq_none.mp hf e0 he0)
      | some e =>
        have hpe := List.find?_some hf
        rw [Bool.and_eq_true] at hpe
        show (if (cur :: rest).contains e.1 = true then
                some (e :: pedges.take ((cur :: rest).takeWhile (fun x => x != e.1)).length)
              else walkBack edges S fuel (e.1 :: cur :: rest) (e :: pedges)).isSome = true
        by_cases hin : (cur :: rest).contains e.1 = true
        · rw [if_pos hin]
          rfl
        · rw [if_neg hin]
          apply ih
          · simp
          · refine List.nodup_cons.mpr ⟨?_, hnd⟩
            intro hmem
            exact hin (List.elem_iff.mpr hmem)
          · intro x hx
            rcases List.mem_cons.mp hx with rfl | hx'
            · exact List.elem_iff.mp hpe.2
            · exact hsub x hx'
          · simp only [List.length_cons] at hlen ⊢
            omega

theorem walkBack_sound (edges : List (Nat × Nat)) (S : List Nat) :
    ∀ fuel (path : List Nat) (pedges cyc : List (Nat × Nat)),
    (∀ e ∈ pedges, e ∈ edges) →
    walkBack edges S fuel path pedges = some cyc →
    cyc ≠ [] ∧ ∀ e ∈ cyc, e ∈ edges := by
  intro fuel
  induction fuel with
  | zero => intro path pedges cyc _ h; cases h
  | succ fuel ih =>
    intro path pedges cyc hped h
    cases path with
    | nil => rw [walkBack] at h; cases h
    | cons cur rest =>
      rw [walkBack] at h
      cases hf : edges.find? (fun e => e.2 == cur && S.contains e.1) with
      | none => simp only [hf] at h; cases h
      | some e =>
        simp only [hf] at h
        have hee : e ∈ edges := List.mem_of_find?_eq_some hf
        by_cases hin : (cur :: rest).contains e.1 = true
        · rw [if_pos hin] at h
          cases h
          refine ⟨by simp, ?_⟩
          intro x hx
          rcases List.mem_cons.mp hx with rfl | hx'
          · exact hee
          · exact hped x (List.take_subset _ _ hx')
        · rw [if_neg hin] at h
          refine ih _ _ _ ?_ h
          intro x hx
          rcases List.mem_cons.mp hx with rfl | hx'
          · exact hee
          · exact hped x hx'

theorem pickMinEdge_mem {nodes : List SNode} :
    ∀ {l : List (Nat × Nat)} {e : Nat × Nat}, pickMinEdge nodes l = some e → e ∈ l := by
  intro l
  induction l with
  | nil => intro e h; cases h
  | cons a rest ih =>
    intro e h
    rw [pickMinEdge] at h
    cases hm : pickMinEdge nodes rest with
    | none => simp only [hm] at h; cases h; exact List.mem_cons_self _ _
    | some m =>
      simp only [hm] at h
      by_cases hcmp : scoreOf nodes m.2 < scoreOf nodes a.2
      · rw [if_pos hcmp] at h; cases h; exact List.mem_cons_of_mem _ (ih hm)
      · rw [if_neg hcmp] at h; cases h; exact List.mem_cons_self _ _

theorem pickMinEdge_isSome (nodes : List SNode) :
    ∀ {l : List (Nat × Nat)}, l ≠ [] → (pickMinEdge nodes l).isSome = true := by
  intro l hne
  cases l with
  | nil => exact absurd rfl hne
  | cons a rest =>
    rw [pickMinEdge]
    cases pickMinEdge nodes rest with
    | none => rfl
    | some m =>
      show (if scoreOf nodes m.2 < scoreOf nodes a.2 then some m else some a).isSome = true
      by_cases hcmp : scoreOf nodes m.2 < scoreOf nodes a.2
      · rw [if_pos hcmp]; rfl
      · rw [if_neg hcmp]; rfl

/-! ## findCycleEdge and breakCycles lemmas -/

theorem findCycleEdge_mem {nodes : List SNode} {edges : List (Nat × Nat)} {e : Nat × Nat}
    (h : findCycleEdge nodes edges = some e) : e ∈ edges := by
  rw [findCycleEdge] at h
  cases hrem : (topoSortRun nodes edges).2 with
  | nil => simp only [hrem] at h; cases h
  | cons n rest =>
    simp only [hrem] at h
    cases hw : walkBack edges ((n :: rest).map SNode.id) ((n :: rest).length + 1) [n.id] [] with
    | none => simp only [hw] at h; cases h
    | some cyc =>
      simp only [hw] at h
      exact (walkBack_sound edges _ _ _ _ _ (by intro x hx; cases hx) hw).2 e (pickMinEdge_mem h)

theorem findCycleEdge_isSome_of_stuck {nodes : List SNode} {edges : List (Nat × Nat)}
    (h : (topoSortRun nodes edges).2 ≠ []) :
    (findCycleEdge nodes edges).isSome = true := by
  rw [findCycleEdge]
  cases hrem : (topoSortRun nodes edges).2 with
  | nil => exact absurd hrem h
  | cons n rest =>
    have hstuck : pickNext edges (n :: rest) = none := by
      rcases topoGo_stuck edges nodes.length nodes (Nat.le_refl _) with h0 | h0
      · rw [topoSortRun] at hrem
        rw [hrem] at h0
        cases h0
      · rw [topoSortRun] at hrem
        rw [hrem] at h0
        exact h0
    have H1 : ∀ x ∈ (n :: rest).map SNode.id,
        ∃ e ∈ edges, e.2 = x ∧ e.1 ∈ (n :: rest).map SNode.id := by
      intro x hx
      rcases List.mem_map.mp hx with ⟨m, hm, rfl⟩
      exact noIncoming_false (pickNext_none hstuck m hm)
    have hw := walkBack_isSome edges ((n :: rest).map SNode.id) H1
      ((n :: rest).length + 1) [n.id] [] (by simp) (by simp)
      (by
        intro x hx
        rcases List.mem_singleton.mp hx with rfl
        exact List.mem_map.mpr ⟨n, List.mem_cons_self _ _, rfl⟩)
      (by simp)
    cases hwv : walkBack edges ((n :: rest).map SNode.id) ((n :: rest).length + 1) [n.id] [] with
    | none => rw [hwv] at hw; cases hw
    | some cyc =>
      simp only [hwv]
      have hcyc := walkBack_sound edges _ _ _ _ _ (by intro x hx; cases hx) hwv
      exact pickMinEdge_isSome nodes hcyc.1

theorem breakCyclesF_no_cycle (nodes : List SNode) :
    ∀ fuel (edges : List (Nat × Nat)), edges.length < fuel →
    findCycleEdge nodes (breakCyclesF nodes fuel edges) = none := by
  intro fuel
  induction fuel with
  | zero => intro edges h; omega
  | succ fuel ih =>
    intro edges hlen
    rw [breakCyclesF]
    cases hf : findCycleEdge nodes edges with
    | none => simp only [hf]
    | some e =>
      simp only [hf]
      have hmem := findCycleEdge_mem hf
      apply ih
      rw [List.length_erase_of_mem hmem]
      have hpos : 0 < edges.length := List.length_pos.mpr (List.ne_nil_of_mem hmem)
      omega

/-- C5: for every candidate set and edge set, the graph left by cycle
resolution has zero cycles: a topological sort succeeds, ordering all nodes
(the stuck remainder is empty and the emitted order is a permutation of the
node set). -/
theorem dag_acyclic_after_resolution (nodes : List SNode) (edges : List (Nat × Nat)) :
    (topoSortRun nodes (breakCycles nodes edges)).2 = [] ∧
    (topoSortRun nodes (breakCycles nodes edges)).1.Perm nodes := by
  have hnone : findCycleEdge nodes (breakCycles nodes edges) = none :=
    breakCyclesF_no_cycle nodes (edges.length + 1) edges (by omega)
  have hrem : (topoSortRun nodes (breakCycles nodes edges)).2 = [] := by
    by_contra hne
    have hs := findCycleEdge_isSome_of_stuck hne
    rw [hnone] at hs
    cases hs
  refine ⟨hrem, ?_⟩
  have hperm := topoGo_perm (breakCycles nodes edges) nodes.length nodes
  rw [topoSortRun] at hrem
  rw [hrem, List.append_nil] at hperm
  exact hperm.symm

theorem breakCyclesF_eq_breakCycles (nodes : List SNode) :
    ∀ fuel (edges : List (Nat × Nat)), edges.length < fuel →
    breakCyclesF nodes fuel edges = breakCycles nodes edges := by
  intro fuel
  induction fuel with
  | zero => intro edges h; omega
  | succ f ih =>
    intro edges hlen
    cases hf : findCycleEdge nodes edges with
    | none => simp only [breakCycles, breakCyclesF, hf]
    | some e =>
      have hmem := findCycleEdge_mem hf
      have hpos : 0 < edges.length := List.length_pos.mpr (List.ne_nil_of_mem hmem)
      have hlt : (edges.erase e).length < f := by
        rw [List.length_erase_of_mem hmem]
        omega
      calc breakCyclesF nodes (f + 1) edges
          = breakCyclesF nodes f (edges.erase e) := by simp only [breakCyclesF, hf]
        _ = breakCycles nodes (edges.erase e) := ih (edges.erase e) hlt
        _ = breakCyclesF nodes ((edges.erase e).length + 1) (edges.erase e) := rfl
        _ = breakCyclesF nodes edges.length (edges.erase e) := by
              congr 1
              rw [List.length_erase_of_mem hmem]
              omega
        _ = breakCycles nodes edges := by
              simp only [breakCycles, breakCyclesF, hf]

/-- C7: the cycle-resolution loop terminates on every input graph.  Whenever a
cycle is detected, the removed edge (the detected cycle's edge whose head node
has the lowest total score) is an edge of the graph and its removal shrinks
the edge count by exactly one, so `edges.length + 1` rounds always reach the
loop's fixpoint: any larger fuel budget computes the same result. -/
theorem cycle_resolution_terminates (nodes : List SNode) (edges : List (Nat × Nat)) :
    (∀ e : Nat × Nat, findCycleEdge nodes edges = some e →
      e ∈ edges ∧ (edges.erase e).length + 1 = edges.length) ∧
    (∀ fuel : Nat, edges.length < fuel →
      breakCyclesF nodes fuel edges = breakCycles nodes edges) := by
  constructor
  · intro e he
    have hmem := findCycleEdge_mem he
    refine ⟨hmem, ?_⟩
    rw [List.length_erase_of_mem hmem]
    have hpos : 0 < edges.length := List.length_pos.mpr (List.ne_nil_of_mem hmem)
    omega
  · intro fuel hfuel
    exact breakCyclesF_eq_breakCycles nodes fuel edges hfuel

/-! ## C6: order respects edges (corrected) -/

theorem horizon_idx_inj : ∀ a b : Horizon, a.idx = b.idx → a = b := by
  intro a b
  cases a <;> cases b <;> simp [Horizon.idx]

theorem mem_bucketIds {nodes : List SNode} {edges0 : List (Nat × Nat)} {n : SNode}
    (hmem : n ∈ topoOrder nodes edges0) :
    n.id ∈ bucketIds nodes edges0 n.act.horizon := by
  rw [bucketIds]
  exact List.mem_map.mpr ⟨n, List.mem_filter.mpr ⟨hmem, by simp⟩, rfl⟩

theorem precedes_seqPath_of_buckets (nodes : List SNode) (edges0 : List (Nat × Nat))
    (u v : Nat) (bu bv : Horizon)
    (hmu : u ∈ bucketIds nodes edges0 bu) (hmv : v ∈ bucketIds nodes edges0 bv)
    (hlt : bu.idx < bv.idx) : Precedes u v (seqPath nodes edges0) := by
  rw [seqPath]
  cases bu with
  | short =>
    cases bv with
    | short => simp [Horizon.idx] at hlt
    | medium =>
      exact Precedes.append_left _ (Precedes.append_left _ (precedes_append_of_mem hmu hmv))
    | long =>
      exact Precedes.append_left _
        (precedes_append_of_mem (List.mem_append_left _ hmu) hmv)
    | extended =>
      exact precedes_append_of_mem
        (List.mem_append_left _ (List.mem_append_left _ hmu)) hmv
  | medium =>
    cases bv with
    | short => simp [Horizon.idx] at hlt
    | medium => simp [Horizon.idx] at hlt
    | long =>
      exact Precedes.append_left _
        (precedes_append_of_mem (List.mem_append_right _ hmu) hmv)
    | extended =>
      exact precedes_append_of_mem
        (List.mem_append_left _ (List.mem_append_right _ hmu)) hmv
  | long =>
    cases bv with
    | short => simp [Horizon.idx] at hlt
    | medium => simp [Horizon.idx] at hlt
    | long => simp [Horizon.idx] at hlt
    | extended =>
      exact precedes_append_of_mem (List.mem_append_right _ hmu) hmv
  | extended => cases bv <;> simp [Horizon.idx] at hlt

/-- C6 (amended): for every edge (u → v) surviving cycle resolution between
catalog nodes with distinct ids, u precedes v in the topological order; the
sequential path concatenates the bucket orders short → medium → long →
extended; and u precedes v in the sequential path whenever u's horizon bucket
does not come after v's.  (The unconditioned path claim fails: see the
counterexample.) -/
theorem order_respects_edges (nodes : List SNode) (edges0 : List (Nat × Nat))
    (nu nv : SNode)
    (hnd : (nodes.map SNode.id).Nodup)
    (hnu : nu ∈ nodes) (hnv : nv ∈ nodes)
    (he : (nu.id, nv.id) ∈ breakCycles nodes edges0) :
    Precedes nu.id nv.id (topoIds nodes edges0) ∧
    (nu.act.horizon.idx ≤ nv.act.horizon.idx →
      Precedes nu.id nv.id (seqPath nodes edges0)) ∧
    seqPath nodes edges0 =
      bucketIds nodes edges0 Horizon.short ++ bucketIds nodes edges0 Horizon.medium ++
        bucketIds nodes edges0 Horizon.long ++ bucketIds nodes edges0 Horizon.extended := by
  have hres := dag_acyclic_after_resolution nodes edges0
  have hperm : (topoOrder nodes edges0).Perm nodes := hres.2
  have humem : nu ∈ topoOrder nodes edges0 := hperm.mem_iff.mpr hnu
  have hvmem : nv ∈ topoOrder nodes edges0 := hperm.mem_iff.mpr hnv
  have hrem : (topoSortRun nodes (breakCycles nodes edges0)).2 = [] := hres.1
  have htopo : Precedes nu.id nv.id ((topoOrder nodes edges0).map SNode.id) :=
    topoGo_precedes (breakCycles nodes edges0) nodes.length nodes
      (Nat.le_refl _) hrem nu.id nv.id he
      (List.mem_map.mpr ⟨nu, humem, rfl⟩) (List.mem_map.mpr ⟨nv, hvmem, rfl⟩)
  refine ⟨htopo, ?_, rfl⟩
  intro hle
  have hinj : ∀ x ∈ nodes, ∀ y ∈ nodes, SNode.id x = SNode.id y → x = y :=
    fun x hx y hy hxy => List.inj_on_of_nodup_map hnd hx hy hxy
  by_cases heq : nu.act.horizon = nv.act.horizon
  · have hfil := precedes_filter_map (fun n => n.act.horizon == nu.act.horizon)
      htopo
      (fun n hn hid => by
        have hnn : n ∈ nodes := hperm.subset hn
        have hne : n = nu := hinj n hnn nu hnu hid
        subst hne
        simp)
      (fun n hn hid => by
        have hnn : n ∈ nodes := hperm.subset hn
        have hne : n = nv := hinj n hnn nv hnv hid
        subst hne
        simp [heq])
    have hb : Precedes nu.id nv.id (bucketIds nodes edges0 nu.act.horizon) := hfil
    cases hh : nu.act.horizon with
    | short =>
      rw [seqPath]
      exact Precedes.append_left _ (Precedes.append_left _ (Precedes.append_left _ (hh ▸ hb)))
    | medium =>
      rw [seqPath]
      exact Precedes.append_left _ (Precedes.append_left _ (Precedes.append_right _ (hh ▸ hb)))
    | long =>
      rw [seqPath]
      exact Precedes.append_left _ (Precedes.append_right _ (hh ▸ hb))
    | extended =>
      rw [seqPath]
      exact Precedes.append_right _ (hh ▸ hb)
  · have hlt : nu.act.horizon.idx < nv.act.horizon.idx := by
      rcases Nat.lt_or_ge nu.act.horizon.idx nv.act.horizon.idx with h | h
      · exact h
      · exact absurd (horizon_idx_inj _ _ (Nat.le_antisymm hle h)) heq
    exact precedes_seqPath_of_buckets nodes edges0 nu.id nv.id _ _
      (mem_bucketIds humem) (mem_bucketIds hvmem) hlt

def cAct (i : Nat) (h : Horizon) : CAction := ⟨i, "", "", 0, 0, 0, 0, [], [], h⟩

def cexNodes : List SNode := [⟨cAct 1 Horizon.long, 50⟩, ⟨cAct 2 Horizon.short, 80⟩]

def cexEdges : List (Nat × Nat) := [(1, 2)]

/-- C6 counterexample: a surviving edge runs from a long-horizon node (id 1)
to a short-horizon node (id 2).  Id 1 precedes id 2 in the topological order,
but the sequential path lists the short bucket first, so id 1 does not precede
id 2 there — the claim's two guarantees conflict on this input. -/
theorem order_respects_edges_counterexample :
    (1, 2) ∈ breakCycles cexNodes cexEdges ∧
    Precedes 1 2 (topoIds cexNodes cexEdges) ∧
    ¬ Precedes 1 2 (seqPath cexNodes cexEdges) :=
  ⟨by decide, by decide, by decide⟩

def wu : SNode := ⟨cAct 1 Horizon.short, 50⟩

def wv : SNode := ⟨cAct 2 Horizon.short, 80⟩

def wNodesSeq : List SNode := [wu, wv]

def wEdgesSeq : List (Nat × Nat) := [(1, 2)]

/-- Witness for C6 (amended) on a two-node same-horizon graph. -/
theorem order_respects_edges_witness :
    Precedes wu.id wv.id (topoIds wNodesSeq wEdgesSeq) ∧
    Precedes wu.id wv.id (seqPath wNodesSeq wEdgesSeq) :=
  ⟨(order_respects_edges wNodesSeq wEdgesSeq wu wv (by decide) (by decide) (by decide)
      (by decide)).1,
   (order_respects_edges wNodesSeq wEdgesSeq wu wv (by decide) (by decide) (by decide)
      (by decide)).2.1 (by decide)⟩

def wNodesCyc : List SNode := [⟨cAct 1 Horizon.short, 50⟩, ⟨cAct 2 Horizon.short, 80⟩]

def wEdgesCyc : List (Nat × Nat) := [(1, 2), (2, 1)]

/-- Witness for C7 on a two-node cyclic graph: the detected edge (2, 1) is
removed (its head, id 1, has the lower score 50), and five rounds of fuel
compute the same resolution as the canonical budget. -/
theorem cycle_resolution_terminates_witness :
    ((2, 1) ∈ wEdgesCyc ∧ (wEdgesCyc.erase (2, 1)).length + 1 = wEdgesCyc.length) ∧
    breakCyclesF wNodesCyc 5 wEdgesCyc = breakCycles wNodesCyc wEdgesCyc :=
  ⟨(cycle_resolution_terminates wNodesCyc wEdgesCyc).1 (2, 1) (by decide),
   (cycle_resolution_terminates wNodesCyc wEdgesCyc).2 5 (by decide)⟩

/-! ## C4: weight validation at engine construction -/

def okWeights : ScoringWeights := ⟨15, 20, 25, 15, 10, 5, 5, 5⟩

def badWeights : ScoringWeights := ⟨15, 20, 25, 15, 10, 5, 5, 2⟩

/-- C4: the eight scoring weights of any constructed engine sum to 1.0
(100 hundredths); the check runs at construction, so a weight set that does
not sum to 1.0 — such as `badWeights`, which sums to 0.97 — yields a
construction-time error and no engine value at all, never a request-time
failure. -/
theorem mkEngine_weight_validation :
    (∀ (w : ScoringWeights) (catalog : List CAction) (e : AscendEngine),
      mkEngine w catalog = Except.ok e → ScoringWeights.total w = 100 ∧ e.weights = w) ∧
    (∀ (w : ScoringWeights) (catalog : List CAction), ScoringWeights.total w ≠ 100 →
      mkEngine w catalog = Except.error "scoring weights must sum to 1.0") ∧
    (ScoringWeights.total badWeights = 97 ∧
      ∀ catalog : List CAction,
        mkEngine badWeights catalog = Except.error "scoring weights must sum to 1.0") := by
  refine ⟨?_, ?_, rfl, ?_⟩
  · intro w catalog e h
    rw [mkEngine] at h
    by_cases ht : ScoringWeights.total w = 100
    · rw [if_pos ht] at h
      cases h
      exact ⟨ht, rfl⟩
    · rw [if_neg ht] at h
      cases h
  · intro w catalog ht
    rw [mkEngine, if_neg ht]
  · intro catalog
    rw [mkEngine, if_neg (by decide)]

/-- Witness for C4: the valid set `okWeights` constructs an engine whose
weights sum to 100 hundredths, and the 0.97 set is rejected. -/
theorem mkEngine_weight_validation_witness :
    (ScoringWeights.total okWeights = 100 ∧ (AscendEngine.mk okWeights []).weights = okWeights) ∧
    mkEngine badWeights [] = Except.error "scoring weights must sum to 1.0" :=
  ⟨mkEngine_weight_validation.1 okWeights [] ⟨okWeights, []⟩ (by rfl),
   mkEngine_weight_validation.2.1 badWeights [] (by decide)⟩

/-! ## C8: determinism of process -/

/-- C8: for fixed profile, query, catalog and weights, `process` is a pure
function: a call leaves the engine state unchanged, and any number of
repeated calls returns the identical result list — bit-identical scores and
orderings. -/
theorem process_deterministic (p : EngineProfile) (q : EngineQuery) (e : AscendEngine)
    (n : Nat) :
    (processSt p q e).2 = e ∧
    processTrace p q e n = List.replicate n (processResult e p q) := by
  refine ⟨rfl, ?_⟩
  induction n with
  | zero => rfl
  | succ n ih =>
    rw [processTrace, List.replicate_succ]
    exact congrArg (List.cons _) ih
